import Mathlib

/-!
Shallow embedding of the annotation-overlay engine of the pdf-translator
web application, together with proofs checking the specification's claims
about it.  Numeric values of the JavaScript source are modelled as exact
rationals; `Math.round`, `Math.max`, `Math.min` and the `||`-fallback
idiom are embedded explicitly below.
-/

namespace PdfTranslator

/-- JavaScript `Math.round`: nearest integer, ties toward positive
infinity, i.e. `⌊x + 1/2⌋`. -/
def jsRound (q : ℚ) : ℤ := ⌊q + 1/2⌋

/-- Grid snapping used by `ImageEditor.handleMouseMove`:
`Math.round(v / 5) * 5`. -/
def snapToGrid (v : ℚ) : ℚ := (jsRound (v / 5) : ℚ) * 5

/-- `value || fallback` on a possibly-absent number: JavaScript treats
`undefined` and `0` as falsy. -/
def jsOrNum (v : Option ℚ) (d : ℚ) : ℚ :=
  match v with
  | some x => if x = 0 then d else x
  | none => d

/-- `value || fallback` on a possibly-absent string (absence is falsy). -/
def jsOrStr (v : Option String) (d : String) : String :=
  match v with
  | some s => s
  | none => d

/-- A text box in native image coordinates, `interface Box` of
`ImageEditor.tsx`. -/
structure Box where
  id : String
  x : ℚ
  y : ℚ
  w : ℚ
  h : ℚ
  text : String
  fontSize : Option ℚ
  color : Option String
deriving DecidableEq, Repr

/-- The four corner resize handles of the editor. -/
inductive Handle where
  | nw
  | ne
  | sw
  | se
deriving DecidableEq, Repr

/-- The on-screen rectangle of the displayed image
(`imageRef.current.getBoundingClientRect()`). -/
structure ImgRect where
  left : ℚ
  top : ℚ
  width : ℚ
  height : ℚ
deriving DecidableEq, Repr

/-- Screen-to-native conversion of `ImageEditor.tsx`:
`(e.clientX - imgRect.left) * (naturalWidth / imgRect.width)`. -/
def screenToNative (client edge rectSize naturalSize : ℚ) : ℚ :=
  (client - edge) * (naturalSize / rectSize)

/-- Drag-start offset captured by `handleBoxMouseDown`, in native
coordinates: `(naturalX - box.x, naturalY - box.y)`. -/
def dragOffsetOf (b : Box) (nx ny : ℚ) : ℚ × ℚ :=
  (nx - b.x, ny - b.y)

/-- The drag branch of `handleMouseMove`: the box position becomes the
pointer's native position minus the drag offset, snapped to the 5 px
grid and clamped to be nonnegative; width and height are untouched. -/
def dragStep (b : Box) (off : ℚ × ℚ) (nx ny : ℚ) : Box :=
  { b with
    x := max 0 (snapToGrid (nx - off.1)),
    y := max 0 (snapToGrid (ny - off.2)) }

/-- Pre-snap result of the `switch (resizeHandle)` in `handleMouseMove`:
the free edges are recomputed from the native mouse position and the
width/height are clamped to the 20 px minimum. -/
structure RawResize where
  newX : ℚ
  newY : ℚ
  newWidth : ℚ
  newHeight : ℚ
deriving DecidableEq, Repr

/-- The `switch (resizeHandle)` of `handleMouseMove`, before grid
snapping. -/
def resizeRaw (b : Box) (hd : Handle) (mouseX mouseY : ℚ) : RawResize :=
  match hd with
  | Handle.se =>
      { newX := b.x, newY := b.y,
        newWidth := max 20 (mouseX - b.x),
        newHeight := max 20 (mouseY - b.y) }
  | Handle.sw =>
      { newX := mouseX, newY := b.y,
        newWidth := max 20 (b.x + b.w - mouseX),
        newHeight := max 20 (mouseY - b.y) }
  | Handle.ne =>
      { newX := b.x, newY := mouseY,
        newWidth := max 20 (mouseX - b.x),
        newHeight := max 20 (b.y + b.h - mouseY) }
  | Handle.nw =>
      { newX := mouseX, newY := mouseY,
        newWidth := max 20 (b.x + b.w - mouseX),
        newHeight := max 20 (b.y + b.h - mouseY) }

/-- The resize branch of `handleMouseMove`: the raw resize followed by
grid snapping and the final clamps
(`x: Math.max(0, Math.round(newX / 5) * 5)`, …,
`w: Math.max(20, Math.round(newWidth / 5) * 5)`, …). -/
def resizeStep (b : Box) (hd : Handle) (mouseX mouseY : ℚ) : Box :=
  let r := resizeRaw b hd mouseX mouseY
  { b with
    x := max 0 (snapToGrid r.newX),
    y := max 0 (snapToGrid r.newY),
    w := max 20 (snapToGrid r.newWidth),
    h := max 20 (snapToGrid r.newHeight) }

/-- One pointer-driven transform on a box: a drag update (with the
captured offset and the pointer's native position) or a resize update. -/
inductive EditOp where
  | drag (off : ℚ × ℚ) (nx ny : ℚ)
  | resize (hd : Handle) (mouseX mouseY : ℚ)

/-- Apply one transform. -/
def applyOp (b : Box) (op : EditOp) : Box :=
  match op with
  | EditOp.drag off nx ny => dragStep b off nx ny
  | EditOp.resize hd mx my => resizeStep b hd mx my

/-- Apply a sequence of transforms, oldest first. -/
def applyOps (b : Box) (ops : List EditOp) : Box :=
  ops.foldl applyOp b

/-- A rational that is a whole multiple of the 5 px snap unit. -/
def Mult5 (q : ℚ) : Prop := ∃ k : ℤ, q = 5 * k

theorem mult5_snapToGrid (v : ℚ) : Mult5 (snapToGrid v) :=
  ⟨jsRound (v / 5), by rw [snapToGrid]; ring⟩

theorem mult5_max {a b : ℚ} (ha : Mult5 a) (hb : Mult5 b) : Mult5 (max a b) := by
  rcases le_total a b with h | h
  · rw [max_eq_right h]; exact hb
  · rw [max_eq_left h]; exact ha

theorem mult5_zero : Mult5 0 := ⟨0, by norm_num⟩

theorem mult5_twenty : Mult5 20 := ⟨4, by norm_num⟩

theorem snapToGrid_int_mul (k : ℤ) : snapToGrid (5 * (k : ℚ)) = 5 * (k : ℚ) := by
  have h5 : (5 : ℚ) ≠ 0 := by norm_num
  rw [snapToGrid, jsRound, mul_div_cancel_left₀ _ h5, Int.floor_int_add]
  norm_num
  ring

/-- A value that is already a nonnegative multiple of 5 is a fixed point
of the clamped snapping `Math.max(0, Math.round(v / 5) * 5)`. -/
theorem snap_fix {q : ℚ} (k : ℤ) (hk : q = 5 * (k : ℚ)) (h0 : 0 ≤ q) :
    max 0 (snapToGrid q) = q := by
  rw [hk, snapToGrid_int_mul, max_eq_right]
  rw [hk] at h0
  exact h0

/-- Convenient concrete boxes for counterexamples and witnesses. -/
def sampleBox (x y w h : ℚ) : Box :=
  { id := "b", x := x, y := y, w := w, h := h,
    text := "", fontSize := none, color := none }

/-- C1, counterexample: the claim quantifies over every box, but a box
that starts below the 20 px minimums keeps its undersized width through
a drag-only sequence — drags never touch `w`/`h` and no clamp is
applied to them. -/
theorem C1_cex_undersized_box_survives_drag :
    ¬ (20 ≤ (applyOps (sampleBox 0 0 10 10) [EditOp.drag (0, 0) 50 50]).w) := by
  simp only [applyOps, List.foldl, applyOp, dragStep, sampleBox]
  norm_num

/-- C1 (amended): every resize output satisfies `w ≥ 20 ∧ h ≥ 20`
unconditionally (the clamp), and any box that initially satisfies the
minimums keeps them through every sequence of drag and resize
operations. -/
theorem C1_minSize_invariant (b : Box) (ops : List EditOp)
    (hw : 20 ≤ b.w) (hh : 20 ≤ b.h) :
    (20 ≤ (applyOps b ops).w ∧ 20 ≤ (applyOps b ops).h) ∧
    ∀ (b' : Box) (hd : Handle) (mx my : ℚ),
      20 ≤ (resizeStep b' hd mx my).w ∧ 20 ≤ (resizeStep b' hd mx my).h := by
  constructor
  · induction ops generalizing b with
    | nil => exact ⟨hw, hh⟩
    | cons op rest ih =>
        cases op with
        | drag off nx ny => exact ih (dragStep b off nx ny) hw hh
        | resize hd mx my =>
            exact ih (resizeStep b hd mx my) (le_max_left _ _) (le_max_left _ _)
  · intro b' hd mx my
    exact ⟨le_max_left _ _, le_max_left _ _⟩

/-- C1 witness: the invariant applied to a concrete box and a concrete
drag-then-resize sequence. -/
theorem C1_minSize_invariant_witness :
    20 ≤ (applyOps (sampleBox 0 0 100 50)
        [EditOp.drag (0, 0) 37 12, EditOp.resize Handle.se 23 21]).w ∧
    20 ≤ (applyOps (sampleBox 0 0 100 50)
        [EditOp.drag (0, 0) 37 12, EditOp.resize Handle.se 23 21]).h :=
  (C1_minSize_invariant (sampleBox 0 0 100 50)
    [EditOp.drag (0, 0) 37 12, EditOp.resize Handle.se 23 21]
    (by norm_num [sampleBox]) (by norm_num [sampleBox])).1

/-- C3, counterexample: a `se`-resize of a box whose `x = 12` is not a
multiple of the snap unit moves the anchor corner — the final grid
snapping rounds `x` to 10, so the anchor is not bit-for-bit preserved. -/
theorem C3_cex_snapping_moves_anchor :
    (resizeStep (sampleBox 12 10 100 50) Handle.se 150 90).x
      ≠ (sampleBox 12 10 100 50).x := by
  simp only [resizeStep, resizeRaw, sampleBox]
  norm_num [snapToGrid, jsRound]

/-- C3 (amended): the pre-snap edge computation of the `se` handle holds
the anchor corner fixed for every mouse position, and the full resize
(snapping and clamps included) preserves the anchor exactly when the
box's `x` and `y` are already nonnegative multiples of the 5 px snap
unit — including when the 20 px minimum clamp engages, which for `se`
touches only `w` and `h`. -/
theorem C3_se_anchor_preserved (b : Box) (mx my : ℚ) (kx ky : ℤ)
    (hx5 : b.x = 5 * (kx : ℚ)) (hx0 : 0 ≤ b.x)
    (hy5 : b.y = 5 * (ky : ℚ)) (hy0 : 0 ≤ b.y) :
    (resizeRaw b Handle.se mx my).newX = b.x ∧
    (resizeRaw b Handle.se mx my).newY = b.y ∧
    (resizeStep b Handle.se mx my).x = b.x ∧
    (resizeStep b Handle.se mx my).y = b.y := by
  refine ⟨rfl, rfl, ?_, ?_⟩
  · show max 0 (snapToGrid (resizeRaw b Handle.se mx my).newX) = b.x
    exact snap_fix kx hx5 hx0
  · show max 0 (snapToGrid (resizeRaw b Handle.se mx my).newY) = b.y
    exact snap_fix ky hy5 hy0

/-- C3 witness: the amended anchor preservation at a concrete box whose
coordinates are snapped, with the clamp engaged (mouse inside the
box). -/
theorem C3_se_anchor_preserved_witness :
    (resizeStep (sampleBox 10 5 100 50) Handle.se 15 8).x
        = (sampleBox 10 5 100 50).x ∧
    (resizeStep (sampleBox 10 5 100 50) Handle.se 15 8).y
        = (sampleBox 10 5 100 50).y :=
  ⟨(C3_se_anchor_preserved (sampleBox 10 5 100 50) 15 8 2 1
      (by norm_num [sampleBox]) (by norm_num [sampleBox])
      (by norm_num [sampleBox]) (by norm_num [sampleBox])).2.2.1,
   (C3_se_anchor_preserved (sampleBox 10 5 100 50) 15 8 2 1
      (by norm_num [sampleBox]) (by norm_num [sampleBox])
      (by norm_num [sampleBox]) (by norm_num [sampleBox])).2.2.2⟩

/-- C4: resizing the box `{x:10, y:10, w:100, h:50}` from its `se`
handle with the pointer at native point `(150, 90)` yields exactly
`{x:10, y:10, w:140, h:80}` — the anchor `x, y` unchanged — for every
id, text, font size and color carried by the box. -/
theorem C4_se_resize_example (idv t : String) (fs : Option ℚ) (c : Option String) :
    resizeStep
        { id := idv, x := 10, y := 10, w := 100, h := 50,
          text := t, fontSize := fs, color := c } Handle.se 150 90
      = { id := idv, x := 10, y := 10, w := 140, h := 80,
          text := t, fontSize := fs, color := c } := by
  simp only [resizeStep, resizeRaw, Box.mk.injEq]
  norm_num [snapToGrid, jsRound]

/-- C5: every drag update leaves `w`/`h` untouched and stores a
position obtained by snapping the converted native value — the
components written back are always whole multiples of the 5 px grid,
for drags and for all four components of a resize; and snapping after
the screen-to-native conversion differs from snapping the raw screen
value before conversion, witnessed at a concrete frame (display width
200, natural width 1000). -/
theorem C5_snap_after_conversion :
    (∀ (b : Box) (off : ℚ × ℚ) (client edge rectSize naturalSize ny : ℚ),
      (dragStep b off (screenToNative client edge rectSize naturalSize) ny).x
          = max 0 (snapToGrid (screenToNative client edge rectSize naturalSize - off.1)) ∧
      (dragStep b off (screenToNative client edge rectSize naturalSize) ny).w = b.w ∧
      (dragStep b off (screenToNative client edge rectSize naturalSize) ny).h = b.h) ∧
    (∀ (b : Box) (off : ℚ × ℚ) (nx ny : ℚ),
      Mult5 (dragStep b off nx ny).x ∧ Mult5 (dragStep b off nx ny).y) ∧
    (∀ (b : Box) (hd : Handle) (mx my : ℚ),
      Mult5 (resizeStep b hd mx my).x ∧ Mult5 (resizeStep b hd mx my).y ∧
      Mult5 (resizeStep b hd mx my).w ∧ Mult5 (resizeStep b hd mx my).h) ∧
    snapToGrid (screenToNative 3 0 200 1000)
      ≠ screenToNative (snapToGrid 3) 0 200 1000 := by
  refine ⟨fun b off client edge rectSize naturalSize ny => ⟨rfl, rfl, rfl⟩,
    fun b off nx ny => ⟨?_, ?_⟩, fun b hd mx my => ⟨?_, ?_, ?_, ?_⟩, ?_⟩
  · exact mult5_max mult5_zero (mult5_snapToGrid _)
  · exact mult5_max mult5_zero (mult5_snapToGrid _)
  · exact mult5_max mult5_zero (mult5_snapToGrid _)
  · exact mult5_max mult5_zero (mult5_snapToGrid _)
  · exact mult5_max mult5_twenty (mult5_snapToGrid _)
  · exact mult5_max mult5_twenty (mult5_snapToGrid _)
  · norm_num [screenToNative, snapToGrid, jsRound]

/-- C6, counterexample: the drag branch does not set the new position to
`pointerNative - dragOffset` — with offset `(0,0)` and pointer native
position `(12, 10)` the stored `x` is the snapped value 10, not 12. -/
theorem C6_cex_drag_position_is_snapped :
    (dragStep (sampleBox 0 0 100 50) (0, 0) 12 10).x ≠ 12 - 0 := by
  simp only [dragStep, sampleBox]
  norm_num [snapToGrid, jsRound]

/-- C6 (amended): every drag stores
`max 0 (snapToGrid (pointerNative - dragOffset))`, with the offset
captured once at drag start as
`pointerNativeAtStart - boxPositionAtStart`; when the box position is a
nonnegative multiple of the snap unit and the pointer sits at its
drag-start point, the box does not move — no jump to the pointer. -/
theorem C6_drag_offset_no_jump (b : Box) (off : ℚ × ℚ) (nx ny px py : ℚ)
    (kx ky : ℤ)
    (hx5 : b.x = 5 * (kx : ℚ)) (hx0 : 0 ≤ b.x)
    (hy5 : b.y = 5 * (ky : ℚ)) (hy0 : 0 ≤ b.y) :
    (dragStep b off nx ny).x = max 0 (snapToGrid (nx - off.1)) ∧
    (dragStep b off nx ny).y = max 0 (snapToGrid (ny - off.2)) ∧
    dragOffsetOf b px py = (px - b.x, py - b.y) ∧
    (dragStep b (dragOffsetOf b px py) px py).x = b.x ∧
    (dragStep b (dragOffsetOf b px py) px py).y = b.y := by
  refine ⟨rfl, rfl, rfl, ?_, ?_⟩
  · show max 0 (snapToGrid (px - (px - b.x))) = b.x
    rw [sub_sub_cancel]
    exact snap_fix kx hx5 hx0
  · show max 0 (snapToGrid (py - (py - b.y))) = b.y
    rw [sub_sub_cancel]
    exact snap_fix ky hy5 hy0

/-- C6 witness: the no-jump property at a concrete box and pointer. -/
theorem C6_drag_offset_no_jump_witness :
    (dragStep (sampleBox 15 20 100 50)
        (dragOffsetOf (sampleBox 15 20 100 50) 33 47) 33 47).x
      = (sampleBox 15 20 100 50).x ∧
    (dragStep (sampleBox 15 20 100 50)
        (dragOffsetOf (sampleBox 15 20 100 50) 33 47) 33 47).y
      = (sampleBox 15 20 100 50).y :=
  ⟨(C6_drag_offset_no_jump (sampleBox 15 20 100 50) (0, 0) 0 0 33 47 3 4
      (by norm_num [sampleBox]) (by norm_num [sampleBox])
      (by norm_num [sampleBox]) (by norm_num [sampleBox])).2.2.2.1,
   (C6_drag_offset_no_jump (sampleBox 15 20 100 50) (0, 0) 0 0 33 47 3 4
      (by norm_num [sampleBox]) (by norm_num [sampleBox])
      (by norm_num [sampleBox]) (by norm_num [sampleBox])).2.2.2.2⟩

/-! ### The editor session and zoom (C2)

The editor canvas applies `transform: scale(zoom)` to the wrapper of the
image, so the bounding rect that every conversion divides by is the base
display size multiplied by the current zoom.  Pointer positions are
given as fractions of the displayed image, which is what "the same
pointer positions relative to the displayed image" means. -/

/-- How the native raster is displayed, zoom excluded. -/
structure Frame where
  naturalWidth : ℚ
  naturalHeight : ℚ
  displayWidth : ℚ
  displayHeight : ℚ
deriving DecidableEq, Repr

/-- The mutable state of the `ImageEditor` component that the pointer
handlers read and write. -/
structure EditorState where
  boxes : List Box
  selectedBoxIndex : Option ℕ
  dragOffset : ℚ × ℚ
  resizeHandle : Option Handle
  dragging : Bool
  resizing : Bool
  zoom : ℚ
deriving DecidableEq, Repr

/-- The native position of a pointer sitting at fraction `(fx, fy)` of
the displayed (zoomed) image: the client offset `fx * (display * zoom)`
divided by the bounding-rect size `display * zoom` and scaled by the
natural size, exactly as `handleBoxMouseDown` / `handleMouseMove`
compute it. -/
def pointerNative (fr : Frame) (zoom fx fy : ℚ) : ℚ × ℚ :=
  (screenToNative (fx * (fr.displayWidth * zoom)) 0
      (fr.displayWidth * zoom) fr.naturalWidth,
   screenToNative (fy * (fr.displayHeight * zoom)) 0
      (fr.displayHeight * zoom) fr.naturalHeight)

/-- User events of one editor session; pointer coordinates are fractions
of the displayed image. -/
inductive Event where
  | boxDown (i : ℕ) (fx fy : ℚ)
  | resizeDown (i : ℕ) (hd : Handle)
  | move (fx fy : ℚ)
  | up
  | textInput (i : ℕ) (t : String)
  | wheel (down : Bool)
  | zoomSlider (z : ℚ)

/-- One step of the editor: `handleBoxMouseDown`,
`handleResizeMouseDown`, `handleMouseMove` (drag branch then resize
branch), `handleMouseUp`, `handleTextChange`, the wheel handler and the
zoom slider. -/
def step (fr : Frame) (st : EditorState) (ev : Event) : EditorState :=
  match ev with
  | Event.boxDown i fx fy =>
      let p := pointerNative fr st.zoom fx fy
      match st.boxes[i]? with
      | some b =>
          { st with selectedBoxIndex := some i, dragging := true,
                    dragOffset := dragOffsetOf b p.1 p.2 }
      | none => { st with selectedBoxIndex := some i, dragging := true }
  | Event.resizeDown i hd =>
      { st with selectedBoxIndex := some i, resizing := true,
                resizeHandle := some hd }
  | Event.move fx fy =>
      let p := pointerNative fr st.zoom fx fy
      let st1 :=
        if st.dragging then
          match st.selectedBoxIndex with
          | some i =>
              match st.boxes[i]? with
              | some b =>
                  { st with boxes := st.boxes.set i (dragStep b st.dragOffset p.1 p.2) }
              | none => st
          | none => st
        else st
      if st1.resizing then
        match st1.selectedBoxIndex, st1.resizeHandle with
        | some i, some hd =>
            match st1.boxes[i]? with
            | some b =>
                { st1 with boxes := st1.boxes.set i (resizeStep b hd p.1 p.2) }
            | none => st1
        | _, _ => st1
      else st1
  | Event.up =>
      if st.dragging || st.resizing then
        { st with dragging := false, resizing := false, resizeHandle := none }
      else st
  | Event.textInput i t =>
      match st.boxes[i]? with
      | some b => { st with boxes := st.boxes.set i { b with text := t } }
      | none => st
  | Event.wheel down =>
      { st with zoom := min 3 (max 0.5 (st.zoom + (if down then -0.1 else 0.1))) }
  | Event.zoomSlider z => { st with zoom := z }

/-- Run a whole event sequence. -/
def run (fr : Frame) (st : EditorState) (evs : List Event) : EditorState :=
  evs.foldl (step fr) st

/-- The state the component mounts with (`useState` initialisers), at a
given zoom. -/
def initState (initialBoxes : List Box) (z : ℚ) : EditorState :=
  { boxes := initialBoxes, selectedBoxIndex := none, dragOffset := (0, 0),
    resizeHandle := none, dragging := false, resizing := false, zoom := z }

/-- Two editor states that agree on everything except possibly the zoom,
whose zooms are either equal or both positive. -/
def SameButZoom (s t : EditorState) : Prop :=
  s.boxes = t.boxes ∧ s.selectedBoxIndex = t.selectedBoxIndex ∧
  s.dragOffset = t.dragOffset ∧ s.resizeHandle = t.resizeHandle ∧
  s.dragging = t.dragging ∧ s.resizing = t.resizing ∧
  (s.zoom = t.zoom ∨ (0 < s.zoom ∧ 0 < t.zoom))

/-- With a positive zoom and positive display sizes, the pointer's
native position depends only on the fraction and the frame — the zoomed
rect size cancels. -/
theorem pointerNative_zoom_free (fr : Frame) (z fx fy : ℚ)
    (hW : 0 < fr.displayWidth) (hH : 0 < fr.displayHeight) (hz : 0 < z) :
    pointerNative fr z fx fy = (fx * fr.naturalWidth, fy * fr.naturalHeight) := by
  have hw : fr.displayWidth * z ≠ 0 := by positivity
  have hh : fr.displayHeight * z ≠ 0 := by positivity
  simp only [pointerNative, screenToNative, sub_zero, Prod.mk.injEq]
  constructor
  · field_simp
    ring
  · field_simp
    ring

/-- The zoom relation of `SameButZoom`, shared by both runs. -/
def ZoomRel (z z' : ℚ) : Prop := z = z' ∨ (0 < z ∧ 0 < z')

theorem zoomRel_wheel (z z' : ℚ) (h : ZoomRel z z') (d : ℚ) :
    ZoomRel (min 3 (max 0.5 (z + d))) (min 3 (max 0.5 (z' + d))) := by
  rcases h with he | _
  · exact Or.inl (by rw [he])
  · refine Or.inr ⟨?_, ?_⟩ <;>
      exact lt_min (by norm_num)
        (lt_of_lt_of_le (by norm_num) (le_max_left _ _))

theorem sameButZoom_mk (b : List Box) (sel : Option ℕ) (off : ℚ × ℚ)
    (rh : Option Handle) (dr rz : Bool) {z z' : ℚ} (h : ZoomRel z z') :
    SameButZoom ⟨b, sel, off, rh, dr, rz, z⟩ ⟨b, sel, off, rh, dr, rz, z'⟩ :=
  ⟨rfl, rfl, rfl, rfl, rfl, rfl, h⟩

theorem step_sameButZoom (fr : Frame)
    (hW : 0 < fr.displayWidth) (hH : 0 < fr.displayHeight)
    {s t : EditorState} (h : SameButZoom s t) (ev : Event) :
    SameButZoom (step fr s ev) (step fr t ev) := by
  obtain ⟨sb, ssel, soff, srh, sdr, srz, sz⟩ := s
  obtain ⟨tb, tsel, toff, trh, tdr, trz, tz⟩ := t
  obtain ⟨hb, hs, ho, hr, hd, hz, hzoom⟩ := h
  simp only at hb hs ho hr hd hz hzoom
  subst hb hs ho hr hd hz
  have hp : ∀ fx fy, pointerNative fr sz fx fy = pointerNative fr tz fx fy := by
    intro fx fy
    rcases hzoom with he | ⟨h1, h2⟩
    · rw [he]
    · rw [pointerNative_zoom_free fr sz fx fy hW hH h1,
          pointerNative_zoom_free fr tz fx fy hW hH h2]
  cases ev with
  | boxDown i fx fy =>
      simp only [step, hp]
      cases sb[i]? <;> try simp
      all_goals
        exact sameButZoom_mk _ _ _ _ _ _ hzoom
  | resizeDown i hd' =>
      exact sameButZoom_mk _ _ _ _ _ _ hzoom
  | move fx fy =>
      simp only [step, hp]
      cases sdr with
      | false =>
          try simp
          cases srz with
          | false => exact sameButZoom_mk _ _ _ _ _ _ hzoom
          | true =>
              try simp
              cases ssel with
              | none => exact sameButZoom_mk _ _ _ _ _ _ hzoom
              | some i =>
                  try simp
                  cases srh with
                  | none => exact sameButZoom_mk _ _ _ _ _ _ hzoom
                  | some hd' =>
                      try simp
                      cases sb[i]? <;> (try simp) <;>
                        exact sameButZoom_mk _ _ _ _ _ _ hzoom
      | true =>
          try simp
          cases ssel with
          | none =>
              try simp
              cases srz with
              | false => exact sameButZoom_mk _ _ _ _ _ _ hzoom
              | true => exact sameButZoom_mk _ _ _ _ _ _ hzoom
          | some i =>
              try simp
              cases hgi : sb[i]? with
              | none =>
                  try simp
                  cases srz with
                  | false => exact sameButZoom_mk _ _ _ _ _ _ hzoom
                  | true =>
                      try simp
                      cases srh with
                      | none => exact sameButZoom_mk _ _ _ _ _ _ hzoom
                      | some hd' =>
                          simp only [hgi]
                          exact sameButZoom_mk _ _ _ _ _ _ hzoom
              | some b =>
                  try simp
                  cases srz with
                  | false => exact sameButZoom_mk _ _ _ _ _ _ hzoom
                  | true =>
                      try simp
                      cases srh with
                      | none => exact sameButZoom_mk _ _ _ _ _ _ hzoom
                      | some hd' =>
                          try simp
                          cases (sb.set i (dragStep b soff
                              (pointerNative fr tz fx fy).1
                              (pointerNative fr tz fx fy).2))[i]? <;>
                              (try simp) <;>
                            exact sameButZoom_mk _ _ _ _ _ _ hzoom
  | up =>
      simp only [step]
      cases sdr <;> cases srz <;> (try simp) <;>
        exact sameButZoom_mk _ _ _ _ _ _ hzoom
  | textInput i txt =>
      simp only [step]
      cases sb[i]? <;> try simp
      all_goals
        exact sameButZoom_mk _ _ _ _ _ _ hzoom
  | wheel down =>
      simp only [step]
      exact sameButZoom_mk _ _ _ _ _ _ (zoomRel_wheel _ _ hzoom _)
  | zoomSlider z =>
      exact sameButZoom_mk _ _ _ _ _ _ (Or.inl rfl)

/-- C2: zoom is presentation-only — two runs of the same event sequence
(same pointer fractions of the displayed image, same text edits) that
differ only in the editor's zoom factor produce bit-for-bit identical
native box geometry, which is what `handleSave` passes to `onSave`. -/
theorem C2_zoom_never_persisted (fr : Frame) (initialBoxes : List Box)
    (z1 z2 : ℚ) (evs : List Event)
    (hW : 0 < fr.displayWidth) (hH : 0 < fr.displayHeight)
    (h1 : 0 < z1) (h2 : 0 < z2) :
    (run fr (initState initialBoxes z1) evs).boxes
      = (run fr (initState initialBoxes z2) evs).boxes := by
  have main : ∀ (evs : List Event) (s t : EditorState), SameButZoom s t →
      SameButZoom (run fr s evs) (run fr t evs) := by
    intro evs
    induction evs with
    | nil => intro s t h; exact h
    | cons ev rest ih =>
        intro s t h
        exact ih _ _ (step_sameButZoom fr hW hH h ev)
  have h0 : SameButZoom (initState initialBoxes z1) (initState initialBoxes z2) :=
    ⟨rfl, rfl, rfl, rfl, rfl, rfl, Or.inr ⟨h1, h2⟩⟩
  exact (main evs _ _ h0).1

/-- C2 witness: a concrete frame, box list, and drag sequence run at
zoom 1 and at zoom 2. -/
theorem C2_zoom_never_persisted_witness :
    (run ⟨1000, 800, 500, 400⟩ (initState [sampleBox 10 10 100 50] 1)
        [Event.boxDown 0 (1/10) (1/10), Event.move (1/2) (1/2), Event.up]).boxes
      = (run ⟨1000, 800, 500, 400⟩ (initState [sampleBox 10 10 100 50] 2)
        [Event.boxDown 0 (1/10) (1/10), Event.move (1/2) (1/2), Event.up]).boxes :=
  C2_zoom_never_persisted ⟨1000, 800, 500, 400⟩ [sampleBox 10 10 100 50] 1 2
    [Event.boxDown 0 (1/10) (1/10), Event.move (1/2) (1/2), Event.up]
    (by norm_num) (by norm_num) (by norm_num) (by norm_num)

/-! ### Size fallbacks in conversions (C7) -/

/-- `v || 1` on a number: 0 is falsy in JavaScript. -/
def jsOr1 (v : ℚ) : ℚ := if v = 0 then 1 else v

/-- Overlay-render scale factor of `ImageEditor.tsx`:
`rect ? rect.width / (naturalWidth || 1) : 1`. -/
def scaleX (rect : Option ImgRect) (naturalWidth : ℚ) : ℚ :=
  match rect with
  | some r => r.width / jsOr1 naturalWidth
  | none => 1

/-- Vertical twin of `scaleX`. -/
def scaleY (rect : Option ImgRect) (naturalHeight : ℚ) : ℚ :=
  match rect with
  | some r => r.height / jsOr1 naturalHeight
  | none => 1

/-- A draggable text block of the test-llm page (`textBlocks` entries). -/
structure TextBlock where
  id : ℤ
  x : ℚ
  y : ℚ
  width : ℚ
  height : ℚ
  text : String
deriving DecidableEq, Repr

/-- A text block together with its save-time normalized coordinates. -/
structure NormalizedBlock where
  base : TextBlock
  normX : ℚ
  normY : ℚ
  normWidth : ℚ
  normHeight : ℚ
deriving DecidableEq, Repr

/-- The normalization in `saveEditedImage`:
`const w = rect.width || 1; const h = rect.height || 1;
normX: block.x / w, …`. -/
def normalizeBlock (rect : ImgRect) (blk : TextBlock) : NormalizedBlock :=
  let w := jsOr1 rect.width
  let h := jsOr1 rect.height
  { base := blk, normX := blk.x / w, normY := blk.y / h,
    normWidth := blk.width / w, normHeight := blk.height / h }

/-- C7, counterexample: with a zero natural width the overlay scale
factor silently becomes `rect.width / 1`, and with a zero container
width the save-time normalization divides by the fallback 1 — the
conversions succeed with the fallback divisor instead of failing with
any `FrameUnavailable` condition (no such condition exists in the
code). -/
theorem C7_cex_fallback_divisor_one :
    scaleX (some { left := 0, top := 0, width := 300, height := 200 }) 0 = 300 ∧
    (normalizeBlock { left := 0, top := 0, width := 0, height := 0 }
        { id := 1, x := 7, y := 3, width := 10, height := 20, text := "" }).normX
      = 7 := by
  constructor
  · simp [scaleX, jsOr1]
  · simp [normalizeBlock, jsOr1]

/-- C7 (amended): when the native size or the container size is zero the
code substitutes a fallback divisor of 1 — `naturalWidth || 1` in the
overlay scale factors and `rect.width || 1` / `rect.height || 1` in the
save-time normalization — and when the bounding rect is absent the scale
factor is 1; the conversion functions are total and never fail. -/
theorem C7_zero_size_fallback (r : ImgRect) (blk : TextBlock) (nw nh : ℚ)
    (hw : nw = 0) (hh : nh = 0) (hrw : r.width = 0) (hrh : r.height = 0) :
    scaleX (some r) nw = r.width ∧
    scaleY (some r) nh = r.height ∧
    scaleX none nw = 1 ∧
    scaleY none nh = 1 ∧
    (normalizeBlock r blk).normX = blk.x ∧
    (normalizeBlock r blk).normY = blk.y ∧
    (normalizeBlock r blk).normWidth = blk.width ∧
    (normalizeBlock r blk).normHeight = blk.height := by
  subst hw hh
  refine ⟨?_, ?_, rfl, rfl, ?_, ?_, ?_, ?_⟩ <;>
    simp [scaleX, scaleY, normalizeBlock, jsOr1, hrw, hrh]

/-- C7 witness: the fallback behaviour at a concrete zero-sized frame. -/
theorem C7_zero_size_fallback_witness :
    scaleX (some { left := 0, top := 0, width := 0, height := 0 }) 0
        = (0 : ℚ) ∧
    (normalizeBlock { left := 0, top := 0, width := 0, height := 0 }
        { id := 2, x := 11, y := 4, width := 6, height := 9, text := "t" }).normX
      = 11 :=
  ⟨(C7_zero_size_fallback { left := 0, top := 0, width := 0, height := 0 }
      { id := 2, x := 11, y := 4, width := 6, height := 9, text := "t" }
      0 0 rfl rfl rfl rfl).1,
   (C7_zero_size_fallback { left := 0, top := 0, width := 0, height := 0 }
      { id := 2, x := 11, y := 4, width := 6, height := 9, text := "t" }
      0 0 rfl rfl rfl rfl).2.2.2.2.1⟩

/-! ### Overlay font size and color (C9) -/

/-- The editor's overlay input font size:
`box.fontSize || Math.max(8, Math.min(box.h * 0.8, 24))`. -/
def renderedFontSize (b : Box) : ℚ :=
  jsOrNum b.fontSize (max 8 (min (b.h * (4/5)) 24))

/-- The editor's overlay input color: `box.color || '#000000'`. -/
def renderedColor (b : Box) : String :=
  jsOrStr b.color "#000000"

/-- OCR-ingestion font size of `loadBoxes`:
`Math.max(8, Math.min((bbox[3] - bbox[1]) * 0.8, 24))`. -/
def ocrInitFontSize (y1 y2 : ℚ) : ℚ :=
  max 8 (min ((y2 - y1) * (4/5)) 24)

/-- A box with an explicit font size far above 0.8 times its height. -/
def bigFontBox : Box :=
  { id := "b", x := 0, y := 0, w := 100, h := 50,
    text := "", fontSize := some 100, color := none }

/-- A box with no explicit font size and no explicit color. -/
def noFontBox : Box :=
  { id := "c", x := 0, y := 0, w := 10, h := 50,
    text := "", fontSize := none, color := none }

/-- C9, counterexample: a box with an explicit `fontSize` of 100 and
height 50 is rendered at 100 px — no `min(style.fontSize, 0.8 * h)` cap
is applied, so the rendered size exceeds 0.8 times the box height. -/
theorem C9_cex_no_font_cap :
    renderedFontSize bigFontBox = 100 ∧
    ¬ (renderedFontSize bigFontBox ≤ (4/5) * bigFontBox.h) := by
  constructor
  · simp [renderedFontSize, bigFontBox, jsOrNum]
  · simp only [renderedFontSize, bigFontBox, jsOrNum]
    norm_num

/-- C9 (amended): an explicitly set font size is rendered as-is with no
cap; only when `fontSize` is unset does the editor use the default
`max 8 (min (0.8 * h) 24)`, which never exceeds 24 nor
`max 8 (0.8 * h)`; OCR ingestion initialises `fontSize` with the same
formula; and the color falls back to `#000000` when unset. -/
theorem C9_font_default_clamped (b : Box) (fs : ℚ) (y1 y2 : ℚ)
    (hset : b.fontSize = some fs) (hfs : fs ≠ 0)
    (b' : Box) (hns : b'.fontSize = none) (hc : b'.color = none) :
    renderedFontSize b = fs ∧
    renderedFontSize b' = max 8 (min (b'.h * (4/5)) 24) ∧
    renderedFontSize b' ≤ 24 ∧
    renderedFontSize b' ≤ max 8 (b'.h * (4/5)) ∧
    ocrInitFontSize y1 y2 = max 8 (min ((y2 - y1) * (4/5)) 24) ∧
    renderedColor b' = "#000000" := by
  refine ⟨?_, ?_, ?_, ?_, rfl, ?_⟩
  · simp [renderedFontSize, hset, jsOrNum, hfs]
  · simp [renderedFontSize, hns, jsOrNum]
  · simp only [renderedFontSize, hns, jsOrNum]
    exact max_le (by norm_num) (le_trans (min_le_right _ _) (by norm_num))
  · simp only [renderedFontSize, hns, jsOrNum]
    exact max_le (le_max_left _ _)
      (le_trans (min_le_left _ _) (le_max_right _ _))
  · simp [renderedColor, hc, jsOrStr]

/-- C9 witness: the amended statement at concrete boxes. -/
theorem C9_font_default_clamped_witness :
    renderedFontSize bigFontBox = 100 ∧ renderedFontSize noFontBox ≤ 24 :=
  ⟨(C9_font_default_clamped bigFontBox 100 0 10 rfl (by norm_num)
      noFontBox rfl rfl).1,
   (C9_font_default_clamped bigFontBox 100 0 10 rfl (by norm_num)
      noFontBox rfl rfl).2.2.1⟩

/-! ### The main page's block model (C8, C10)

`page.tsx` keeps the vision result (`visionOriginal`), a flat list of
editable blocks (`flatBlocks`), a dirty flag, and a bounded undo
history. -/

/-- One block of a vision-result page. -/
structure VBlock where
  type : String
  text : String
deriving DecidableEq, Repr

/-- One page of the vision result. -/
structure VPage where
  page : ℕ
  blocks : List VBlock
deriving DecidableEq, Repr

/-- The vision result (`VisionData`). -/
structure VisionData where
  pages : List VPage
deriving DecidableEq, Repr

/-- A flat editable block of `page.tsx`. -/
structure Block where
  id : String
  page : ℕ
  blockIndex : ℕ
  type : String
  text : String
deriving DecidableEq, Repr

/-- `normalizeVisionData`: flatten the pages into blocks, with ids
`"{page}-{index}"`. -/
def normalizeVisionData (v : VisionData) : List Block :=
  (v.pages.map (fun pg =>
    pg.blocks.enum.map (fun bi =>
      { id := toString pg.page ++ "-" ++ toString bi.1, page := pg.page,
        blockIndex := bi.1, type := bi.2.type, text := bi.2.text }))).flatten

/-- Find the first page with the given page number in a raw page list,
then read the text of its block at the given index. -/
def lookupInPages (pages : List VPage) (pg bi : ℕ) : Option String :=
  match pages.find? (fun p => p.page = pg) with
  | some p => p.blocks[bi]?.map VBlock.text
  | none => none

/-- The first page of `v` with the given page number, then its block at
the given index — the lookup performed by `handleResetBlock` and
`calculateChangedBlocks` (`pages.find(...)`, `blocks[blockIndex]`). -/
def lookupOriginalText (v : VisionData) (pg bi : ℕ) : Option String :=
  lookupInPages v.pages pg bi

/-- The state of `page.tsx` that the edit handlers touch. -/
structure PageState where
  visionOriginal : VisionData
  flatBlocks : List Block
  dirty : Bool
deriving DecidableEq, Repr

/-- `handleTextChange`: rewrite the text of the blocks with the given id
and mark the state dirty. -/
def handleTextChange (st : PageState) (blockId newText : String) : PageState :=
  { st with
    flatBlocks := st.flatBlocks.map (fun b =>
      if b.id = blockId then { b with text := newText } else b),
    dirty := true }

/-- `handleResetBlock`: restore the block's text from the current
`visionOriginal` snapshot, if the block and its snapshot entry exist. -/
def handleResetBlock (st : PageState) (blockId : String) : PageState :=
  match st.flatBlocks.find? (fun b => b.id = blockId) with
  | none => st
  | some ob =>
      match lookupOriginalText st.visionOriginal ob.page ob.blockIndex with
      | some t =>
          { st with
            flatBlocks := st.flatBlocks.map (fun b =>
              if b.id = blockId then { b with text := t } else b),
            dirty := true }
      | none => st

/-- Write `t` into position `bi` of a block list, when it exists —
`page.blocks[block.blockIndex].text = block.text` guarded by existence. -/
def setBlockText (blocks : List VBlock) (bi : ℕ) (t : String) : List VBlock :=
  match blocks[bi]? with
  | some b => blocks.set bi { b with text := t }
  | none => blocks

/-- Update the first page with the given page number
(`visionEdited.pages.find(...)` mutates the found page). -/
def updateFirstPage : List VPage → ℕ → ℕ → String → List VPage
  | [], _, _, _ => []
  | p :: ps, pg, bi, t =>
      if p.page = pg then { p with blocks := setBlockText p.blocks bi t } :: ps
      else p :: updateFirstPage ps pg bi t

/-- The reconstruction loop of `handleSaveEdits`: write every flat
block's text into a copy of the vision data. -/
def mergeEdits (v : VisionData) (blocks : List Block) : VisionData :=
  { pages := blocks.foldl
      (fun acc b => updateFirstPage acc b.page b.blockIndex b.text) v.pages }

/-- `handleSaveEdits`: when dirty, rebuild the vision data from the flat
blocks and replace `visionOriginal` with it (`setVisionOriginal(visionEdited)`). -/
def handleSaveEdits (st : PageState) : PageState :=
  if st.dirty then
    { st with visionOriginal := mergeEdits st.visionOriginal st.flatBlocks,
              dirty := false }
  else st

/-- `calculateChangedBlocks`: the blocks whose text differs from the
snapshot text (`''` when the snapshot entry is missing). -/
def calculateChangedBlocks (blocks : List Block) (original : Option VisionData) :
    List Block :=
  match original with
  | none => []
  | some v => blocks.filter (fun b =>
      b.text ≠ (lookupOriginalText v b.page b.blockIndex).getD "")

theorem lookupInPages_update_same (pages : List VPage) (pg bi : ℕ) (t : String)
    (h : (lookupInPages pages pg bi).isSome) :
    lookupInPages (updateFirstPage pages pg bi t) pg bi = some t := by
  induction pages with
  | nil => simp [lookupInPages, List.find?] at h
  | cons p ps ih =>
      by_cases hpg : p.page = pg
      · have hdec : (decide (p.page = pg)) = true := decide_eq_true hpg
        simp only [lookupInPages, List.find?, hdec] at h
        cases hget : p.blocks[bi]? with
        | none => rw [hget] at h; simp at h
        | some b =>
            have hlen : bi < p.blocks.length := by
              by_contra hlt
              rw [List.getElem?_eq_none (by omega)] at hget
              exact Option.noConfusion hget
            rw [updateFirstPage, if_pos hpg]
            simp only [lookupInPages, List.find?, hdec]
            simp [setBlockText, hget, List.getElem?_set_self hlen]
      · have hdec : (decide (p.page = pg)) = false := decide_eq_false hpg
        simp only [lookupInPages, List.find?, hdec] at h
        rw [updateFirstPage, if_neg hpg]
        simp only [lookupInPages, List.find?, hdec]
        exact ih h

theorem lookupInPages_update_other (pages : List VPage) (pg bi pg2 bi2 : ℕ)
    (t : String) (hne : pg2 ≠ pg ∨ bi2 ≠ bi) :
    lookupInPages (updateFirstPage pages pg2 bi2 t) pg bi
      = lookupInPages pages pg bi := by
  induction pages with
  | nil => rfl
  | cons p ps ih =>
      by_cases hpg2 : p.page = pg2
      · rw [updateFirstPage, if_pos hpg2]
        by_cases hpg : p.page = pg
        · have hpp : pg2 = pg := by rw [← hpg2, hpg]
          have hbi : bi2 ≠ bi := hne.resolve_left (by simp [hpp])
          have hdec : (decide (p.page = pg)) = true := decide_eq_true hpg
          simp only [lookupInPages, List.find?, hdec]
          cases hget : p.blocks[bi2]? with
          | none => simp [setBlockText, hget]
          | some b => simp [setBlockText, hget, List.getElem?_set_ne hbi]
        · have hdec : (decide (p.page = pg)) = false := decide_eq_false hpg
          simp only [lookupInPages, List.find?, hdec]
      · rw [updateFirstPage, if_neg hpg2]
        by_cases hpg : p.page = pg
        · have hdec : (decide (p.page = pg)) = true := decide_eq_true hpg
          simp only [lookupInPages, List.find?, hdec]
        · have hdec : (decide (p.page = pg)) = false := decide_eq_false hpg
          simp only [lookupInPages, List.find?, hdec]
          exact ih

theorem lookupInPages_update_isSome (pages : List VPage) (pg bi pg2 bi2 : ℕ)
    (t : String) (h : (lookupInPages pages pg bi).isSome) :
    (lookupInPages (updateFirstPage pages pg2 bi2 t) pg bi).isSome := by
  by_cases hsame : pg2 = pg ∧ bi2 = bi
  · obtain ⟨h1, h2⟩ := hsame
    subst h1 h2
    rw [lookupInPages_update_same pages pg2 bi2 t h]
    rfl
  · rcases not_and_or.mp hsame with h1 | h2
    · rw [lookupInPages_update_other pages pg bi pg2 bi2 t (Or.inl h1)]
      exact h
    · rw [lookupInPages_update_other pages pg bi pg2 bi2 t (Or.inr h2)]
      exact h

/-- The save-time fold writes `some t` at `(pg, bi)` whenever the entry
exists, every written block with that key carries text `t`, and the key
is either already at `t` or written by some block of the list. -/
theorem lookupInPages_mergeFold (blocks : List Block) (pages : List VPage)
    (pg bi : ℕ) (t : String)
    (hsome : (lookupInPages pages pg bi).isSome)
    (hall : ∀ b ∈ blocks, b.page = pg → b.blockIndex = bi → b.text = t)
    (hstart : lookupInPages pages pg bi = some t ∨
      ∃ b ∈ blocks, b.page = pg ∧ b.blockIndex = bi) :
    lookupInPages
      (blocks.foldl (fun acc b => updateFirstPage acc b.page b.blockIndex b.text)
        pages) pg bi = some t := by
  induction blocks generalizing pages with
  | nil =>
      rcases hstart with h | ⟨b, hb, _⟩
      · exact h
      · exact absurd hb (List.not_mem_nil b)
  | cons b rest ih =>
      simp only [List.foldl_cons]
      by_cases hmatch : b.page = pg ∧ b.blockIndex = bi
      · obtain ⟨h1, h2⟩ := hmatch
        have ht : b.text = t := hall b (List.mem_cons_self b rest) h1 h2
        refine ih (updateFirstPage pages b.page b.blockIndex b.text) ?_ ?_ ?_
        · exact lookupInPages_update_isSome pages pg bi _ _ _ hsome
        · intro b' hb' hp' hi'
          exact hall b' (List.mem_cons_of_mem b hb') hp' hi'
        · left
          rw [h1, h2, ht]
          exact lookupInPages_update_same pages pg bi t hsome
      · have hne : b.page ≠ pg ∨ b.blockIndex ≠ bi := not_and_or.mp hmatch
        refine ih (updateFirstPage pages b.page b.blockIndex b.text) ?_ ?_ ?_
        · exact lookupInPages_update_isSome pages pg bi _ _ _ hsome
        · intro b' hb' hp' hi'
          exact hall b' (List.mem_cons_of_mem b hb') hp' hi'
        · rcases hstart with h | ⟨b', hb', hk'⟩
          · left
            rw [lookupInPages_update_other pages pg bi _ _ _ hne]
            exact h
          · rcases List.mem_cons.mp hb' with rfl | hmem
            · exact absurd hk' hmatch
            · right
              exact ⟨b', hmem, hk'⟩

/-- The text-rewriting map of `handleTextChange` / `handleResetBlock`
preserves ids, pages and block indices, so `find?` commutes with it. -/
theorem find?_textMap (l : List Block) (blockId t : String) :
    (l.map (fun b => if b.id = blockId then { b with text := t } else b)).find?
        (fun b => b.id = blockId)
      = (l.find? (fun b => b.id = blockId)).map
          (fun b => if b.id = blockId then { b with text := t } else b) := by
  have hp : ((fun b : Block => decide (b.id = blockId)) ∘ fun b =>
      if b.id = blockId then { b with text := t } else b)
        = (fun b : Block => decide (b.id = blockId)) := by
    funext b
    by_cases h : b.id = blockId <;> simp [h]
  rw [List.find?_map, hp]

/-- Every block of the rewritten list that carries the target id carries
the new text. -/
theorem mem_textMap_text (l : List Block) (blockId t : String) (b : Block)
    (hb : b ∈ l.map (fun x => if x.id = blockId then { x with text := t } else x))
    (hid : b.id = blockId) : b.text = t := by
  obtain ⟨a, _, ha⟩ := List.mem_map.mp hb
  by_cases h : a.id = blockId
  · rw [if_pos h] at ha
    rw [← ha]
  · rw [if_neg h] at ha
    rw [← ha] at hid
    exact absurd hid h

/-- If `find?` locates the block and the snapshot holds a text for its
coordinates, resetting rewrites every block with that id to the snapshot
text. -/
theorem reset_text (st : PageState) (blockId t' : String) (ob : Block)
    (hf : st.flatBlocks.find? (fun b => b.id = blockId) = some ob)
    (hl : lookupOriginalText st.visionOriginal ob.page ob.blockIndex = some t') :
    ∀ b ∈ (handleResetBlock st blockId).flatBlocks, b.id = blockId → b.text = t' := by
  intro b hb hid
  simp only [handleResetBlock, hf, hl] at hb
  exact mem_textMap_text _ _ _ b hb hid

/-- A sample vision result: one page, one block of text `"a"`. -/
def cVision : VisionData :=
  { pages := [{ page := 1, blocks := [{ type := "text", text := "a" }] }] }

/-- The page state right after ingesting `cVision`. -/
def cPageState : PageState :=
  { visionOriginal := cVision, flatBlocks := normalizeVisionData cVision,
    dirty := false }

/-- C8, counterexample: the ingestion-time snapshot of the only block is
`"a"`; after editing it to `"b"`, saving, and resetting, the block's
text is `"b"` — `handleSaveEdits` replaced the snapshot
(`setVisionOriginal(visionEdited)`), so reset no longer restores the
ingestion-time text. -/
theorem C8_cex_save_rebases_snapshot :
    lookupOriginalText cPageState.visionOriginal 1 0 = some "a" ∧
    (handleResetBlock (handleSaveEdits (handleTextChange cPageState "1-0" "b"))
        "1-0").flatBlocks.map Block.text = ["b"] ∧
    ("b" : String) ≠ "a" := by
  refine ⟨rfl, rfl, by decide⟩

/-- C8 (amended): a block's snapshot text is replaced on every dirty
save with the block's current text; resetting restores the text from the
most recent saved snapshot — the ingestion-time snapshot only when no
save has intervened — and the changed-blocks computation compares each
block against that same current snapshot. -/
theorem C8_reset_follows_saved_snapshot
    (st0 : PageState) (blockId t origText : String) (ob : Block)
    (hfind : st0.flatBlocks.find? (fun b => b.id = blockId) = some ob)
    (hkey : ∀ b ∈ st0.flatBlocks, b.page = ob.page →
      b.blockIndex = ob.blockIndex → b.id = blockId)
    (horig : lookupOriginalText st0.visionOriginal ob.page ob.blockIndex
      = some origText) :
    (∀ b ∈ (handleResetBlock (handleTextChange st0 blockId t) blockId).flatBlocks,
        b.id = blockId → b.text = origText) ∧
    lookupOriginalText
        (handleSaveEdits (handleTextChange st0 blockId t)).visionOriginal
        ob.page ob.blockIndex = some t ∧
    (∀ b ∈ (handleResetBlock (handleSaveEdits (handleTextChange st0 blockId t))
        blockId).flatBlocks, b.id = blockId → b.text = t) ∧
    ∀ (blocks : List Block) (v : VisionData) (b : Block),
      b ∈ calculateChangedBlocks blocks (some v) ↔
        b ∈ blocks ∧ ¬ b.text = (lookupOriginalText v b.page b.blockIndex).getD "" := by
  have obid : ob.id = blockId := by
    have h := List.find?_some hfind
    simpa using h
  have hfob : (if ob.id = blockId then ({ ob with text := t } : Block) else ob)
      = { ob with text := t } := if_pos obid
  have find1 : (handleTextChange st0 blockId t).flatBlocks.find?
      (fun b => b.id = blockId) = some { ob with text := t } := by
    simp only [handleTextChange]
    rw [find?_textMap, hfind]
    simp [obid]
  have hsome0 : (lookupInPages st0.visionOriginal.pages
      ob.page ob.blockIndex).isSome := by
    have h : lookupInPages st0.visionOriginal.pages ob.page ob.blockIndex
        = some origText := horig
    rw [h]
    rfl
  have hall : ∀ b ∈ (handleTextChange st0 blockId t).flatBlocks,
      b.page = ob.page → b.blockIndex = ob.blockIndex → b.text = t := by
    intro b hb hp hi
    simp only [handleTextChange] at hb
    obtain ⟨a, ha, rfl⟩ := List.mem_map.mp hb
    by_cases hid : a.id = blockId
    · simp [hid]
    · simp only [if_neg hid] at hp hi ⊢
      exact absurd (hkey a ha hp hi) hid
  have hmem1 : ({ ob with text := t } : Block)
      ∈ (handleTextChange st0 blockId t).flatBlocks := by
    simp only [handleTextChange]
    exact List.mem_map.mpr ⟨ob, List.mem_of_find?_eq_some hfind, hfob⟩
  have hlookup2 : lookupOriginalText
      (handleSaveEdits (handleTextChange st0 blockId t)).visionOriginal
      ob.page ob.blockIndex = some t := by
    show lookupInPages
      (((handleTextChange st0 blockId t).flatBlocks).foldl
        (fun acc b => updateFirstPage acc b.page b.blockIndex b.text)
        st0.visionOriginal.pages) ob.page ob.blockIndex = some t
    exact lookupInPages_mergeFold _ _ _ _ _ hsome0 hall
      (Or.inr ⟨{ ob with text := t }, hmem1, rfl, rfl⟩)
  refine ⟨?_, hlookup2, ?_, ?_⟩
  · exact reset_text _ blockId origText { ob with text := t } find1 horig
  · exact reset_text _ blockId t { ob with text := t } find1 hlookup2
  · intro blocks v b
    simp [calculateChangedBlocks, List.mem_filter]

/-- C8 witness: the amended behaviour at the concrete one-block state —
after saving the edit `"b"`, the snapshot at page 1, block 0 holds
`"b"`. -/
theorem C8_reset_follows_saved_snapshot_witness :
    lookupOriginalText
        (handleSaveEdits (handleTextChange cPageState "1-0" "b")).visionOriginal
        1 0 = some "b" :=
  (C8_reset_follows_saved_snapshot cPageState "1-0" "b" "a"
    { id := "1-0", page := 1, blockIndex := 0, type := "text", text := "a" }
    (by decide) (by decide) (by decide)).2.1

/-! ### The main page's undo history (C10) -/

/-- The history-related state of `page.tsx`. -/
structure HistoryState where
  history : List (List Block)
  historyIndex : ℕ
  flatBlocks : List Block
  dirty : Bool
deriving DecidableEq, Repr

/-- JavaScript `array.slice(-20)`: the last 20 elements. -/
def keepLast20 (l : List (List Block)) : List (List Block) :=
  l.drop (l.length - 20)

/-- `addToHistory`: truncate the redo tail, push a snapshot, keep the
last 20, and cap the index at 19. -/
def addToHistory (st : HistoryState) (blocks : List Block) : HistoryState :=
  let newHistory := keepLast20 (st.history.take (st.historyIndex + 1) ++ [blocks])
  { st with history := newHistory, historyIndex := min (st.historyIndex + 1) 19 }

/-- Any of the edit handlers (`handleTextChange`, bulk operations,
`handleResetBlock`): set the new blocks, mark dirty, and record the
snapshot (the debounced history add taken as completed). -/
def applyBlocksEdit (st : HistoryState) (newBlocks : List Block) : HistoryState :=
  addToHistory { st with flatBlocks := newBlocks, dirty := true } newBlocks

/-- `handleUndo`: step the index back when possible and restore that
snapshot when it exists. -/
def pageUndo (st : HistoryState) : HistoryState :=
  if 0 < st.historyIndex then
    match st.history[st.historyIndex - 1]? with
    | some prevState =>
        { st with historyIndex := st.historyIndex - 1,
                  flatBlocks := prevState, dirty := true }
    | none => { st with historyIndex := st.historyIndex - 1 }
  else st

/-- `handleRedo`: step the index forward when possible and restore that
snapshot when it exists. -/
def pageRedo (st : HistoryState) : HistoryState :=
  if st.historyIndex + 1 < st.history.length then
    match st.history[st.historyIndex + 1]? with
    | some nextState =>
        { st with historyIndex := st.historyIndex + 1,
                  flatBlocks := nextState, dirty := true }
    | none => { st with historyIndex := st.historyIndex + 1 }
  else st

/-- One user action on the history: an edit (text change, bulk
operation or reset, with the resulting block list), an undo, or a
redo. -/
inductive PageOp where
  | edit (newBlocks : List Block)
  | undo
  | redo

/-- Apply one action. -/
def applyPageOp (st : HistoryState) (op : PageOp) : HistoryState :=
  match op with
  | PageOp.edit nb => applyBlocksEdit st nb
  | PageOp.undo => pageUndo st
  | PageOp.redo => pageRedo st

/-- Apply a sequence of actions, oldest first. -/
def applyPageOps (st : HistoryState) (ops : List PageOp) : HistoryState :=
  ops.foldl applyPageOp st

/-- The history invariant: at most 20 snapshots, the index in range, and
the current blocks stored at the index. -/
def HistoryOK (st : HistoryState) : Prop :=
  st.history.length ≤ 20 ∧ st.historyIndex < st.history.length ∧
  st.history[st.historyIndex]? = some st.flatBlocks

theorem applyBlocksEdit_def (st : HistoryState) (nb : List Block) :
    applyBlocksEdit st nb =
      { history := keepLast20 (st.history.take (st.historyIndex + 1) ++ [nb]),
        historyIndex := min (st.historyIndex + 1) 19,
        flatBlocks := nb, dirty := true } := rfl

theorem historyOK_edit {st : HistoryState} (hok : HistoryOK st)
    (nb : List Block) : HistoryOK (applyBlocksEdit st nb) := by
  obtain ⟨hlen, hidx, hget⟩ := hok
  have hi19 : st.historyIndex ≤ 19 := by omega
  have htlen : (st.history.take (st.historyIndex + 1)).length
      = st.historyIndex + 1 := by
    rw [List.length_take]
    omega
  have hllen : (st.history.take (st.historyIndex + 1) ++ [nb]).length
      = st.historyIndex + 2 := by
    rw [List.length_append, htlen]
    rfl
  rw [applyBlocksEdit_def]
  refine ⟨?_, ?_, ?_⟩
  · show (keepLast20 _).length ≤ 20
    rw [keepLast20, List.length_drop, hllen]
    omega
  · show min (st.historyIndex + 1) 19 < (keepLast20 _).length
    rw [keepLast20, List.length_drop, hllen]
    omega
  · show (keepLast20 _)[min (st.historyIndex + 1) 19]? = some nb
    rw [keepLast20, List.getElem?_drop, hllen]
    have harith : st.historyIndex + 2 - 20 + min (st.historyIndex + 1) 19
        = st.historyIndex + 1 := by omega
    rw [harith, List.getElem?_append_right (by simp [htlen]), htlen]
    simp

theorem historyOK_undo {st : HistoryState} (hok : HistoryOK st) :
    HistoryOK (pageUndo st) := by
  obtain ⟨hlen, hidx, hget⟩ := hok
  rw [pageUndo]
  by_cases hpos : 0 < st.historyIndex
  · rw [if_pos hpos]
    have hlt : st.historyIndex - 1 < st.history.length := by omega
    cases hprev : st.history[st.historyIndex - 1]? with
    | none =>
        rw [List.getElem?_eq_getElem hlt] at hprev
        exact Option.noConfusion hprev
    | some prevState =>
        exact ⟨hlen, hlt, hprev⟩
  · rw [if_neg hpos]
    exact ⟨hlen, hidx, hget⟩

theorem historyOK_redo {st : HistoryState} (hok : HistoryOK st) :
    HistoryOK (pageRedo st) := by
  obtain ⟨hlen, hidx, hget⟩ := hok
  rw [pageRedo]
  by_cases hlt : st.historyIndex + 1 < st.history.length
  · rw [if_pos hlt]
    cases hnext : st.history[st.historyIndex + 1]? with
    | none =>
        rw [List.getElem?_eq_getElem hlt] at hnext
        exact Option.noConfusion hnext
    | some nextState =>
        exact ⟨hlen, hlt, hnext⟩
  · rw [if_neg hlt]
    exact ⟨hlen, hidx, hget⟩

theorem historyOK_ops {st : HistoryState} (hok : HistoryOK st)
    (ops : List PageOp) : HistoryOK (applyPageOps st ops) := by
  induction ops generalizing st with
  | nil => exact hok
  | cons op rest ih =>
      cases op with
      | edit nb => exact ih (historyOK_edit hok nb)
      | undo => exact ih (historyOK_undo hok)
      | redo => exact ih (historyOK_redo hok)

/-- Undo right after an edit restores exactly the pre-edit blocks. -/
theorem undo_after_edit {st : HistoryState} (hok : HistoryOK st)
    (nb : List Block) :
    (pageUndo (applyBlocksEdit st nb)).flatBlocks = st.flatBlocks := by
  obtain ⟨hlen, hidx, hget⟩ := hok
  have hi19 : st.historyIndex ≤ 19 := by omega
  have htlen : (st.history.take (st.historyIndex + 1)).length
      = st.historyIndex + 1 := by
    rw [List.length_take]
    omega
  have hllen : (st.history.take (st.historyIndex + 1) ++ [nb]).length
      = st.historyIndex + 2 := by
    rw [List.length_append, htlen]
    rfl
  have hprev : (keepLast20 (st.history.take (st.historyIndex + 1) ++ [nb]))[min (st.historyIndex + 1) 19 - 1]? = some st.flatBlocks := by
    rw [keepLast20, List.getElem?_drop, hllen]
    have harith : st.historyIndex + 2 - 20 + (min (st.historyIndex + 1) 19 - 1)
        = st.historyIndex := by omega
    rw [harith, List.getElem?_append,
      if_pos (show st.historyIndex
        < (List.take (st.historyIndex + 1) st.history).length by
          rw [htlen]; omega)]
    rw [List.getElem?_take, if_pos (by omega)]
    exact hget
  rw [applyBlocksEdit_def, pageUndo]
  simp only
  rw [if_pos (show 0 < min (st.historyIndex + 1) 19 by omega), hprev]

/-- C10: from any state satisfying the history invariant (at most 20
snapshots, index in range, current blocks stored at the index — the
state right after initialisation satisfies it), every sequence of edits,
bulk operations, undos and redos preserves the invariant, and an undo
immediately after an edit restores exactly the pre-edit block state. -/
theorem C10_history_bounded_consistent (st : HistoryState) (ops : List PageOp)
    (hok : HistoryOK st) :
    HistoryOK (applyPageOps st ops) ∧
    ∀ nb : List Block,
      (pageUndo (applyBlocksEdit (applyPageOps st ops) nb)).flatBlocks
        = (applyPageOps st ops).flatBlocks := by
  refine ⟨historyOK_ops hok ops, fun nb => ?_⟩
  exact undo_after_edit (historyOK_ops hok ops) nb

/-- A freshly-initialised history state: one empty snapshot. -/
def cHistoryState : HistoryState :=
  { history := [[]], historyIndex := 0, flatBlocks := [], dirty := false }

/-- A concrete block for the history witness. -/
def cBlockX : Block :=
  { id := "1-0", page := 1, blockIndex := 0, type := "text", text := "x" }

/-- C10 witness: the invariant at a concrete freshly-initialised state
and a concrete operation sequence. -/
theorem C10_history_bounded_consistent_witness :
    HistoryOK (applyPageOps cHistoryState
      [PageOp.edit [cBlockX], PageOp.undo, PageOp.redo]) :=
  (C10_history_bounded_consistent cHistoryState
    [PageOp.edit [cBlockX], PageOp.undo, PageOp.redo]
    ⟨by norm_num [cHistoryState], by norm_num [cHistoryState], rfl⟩).1

end PdfTranslator
